import Mathlib

/-!
Verification of `src/Transcriber.py`, a batch audio-transcription script.

The script is embedded shallowly:

* Paths and filenames are `String`s.  The helpers `os.path.join`,
  `os.path.basename`, `os.path.splitext` are translated from CPython's
  `posixpath` implementation (separator `/`, extension separator `.`,
  no `altsep`).
* The filesystem is a record `FS`: whether the input directory exists, the
  list of entries returned by `os.listdir` on it (base names), whether the
  output directory exists, and the list of full paths of existing regular
  files (what `os.path.exists` consults for output files and what writes
  extend).
* The external effects of a worker (the Whisper model call and the output
  file write) are oracles in a `WorkerEnv`; a Python exception is the
  `.error` case of an `Except String` result, carrying `str(e)`.
* `multiprocessing.Pool.imap_unordered` applies the worker function to every
  dispatched item and yields the results in completion order; it is modelled
  by an explicit completion order `llegada`, constrained in the theorems to
  be a permutation of the dispatched item list.
-/

/-- The base directory of the script (`RUTA_BASE_SCRIPT`).  The code computes
it with `os.path.dirname(os.path.abspath(__file__))`; it is some fixed
absolute directory path, modelled here by a concrete representative.  No
claim depends on its value. -/
def RUTA_BASE_SCRIPT : String := "/base"

/-- Python `str.startswith(pre)`. -/
def pyStartsWith (s pre : String) : Bool :=
  pre.data.isPrefixOf s.data

/-- Python `str.endswith(suffix)`. -/
def pyEndsWith (s suffix : String) : Bool :=
  suffix.data.isSuffixOf s.data

/-- `os.path.join(dir, name)` (posixpath): if `name` is absolute it wins;
otherwise the parts are glued with a single `/` unless `dir` is empty or
already ends in the separator. -/
def osJoin (dir name : String) : String :=
  if pyStartsWith name "/" then name
  else if dir = "" ∨ pyEndsWith dir "/" then dir ++ name
  else dir ++ "/" ++ name

/-- `CARPETA_AUDIOS = os.path.join(RUTA_BASE_SCRIPT, "audios")`. -/
def CARPETA_AUDIOS : String := osJoin RUTA_BASE_SCRIPT "audios"

/-- `CARPETA_TRANSCRIPCIONES = os.path.join(RUTA_BASE_SCRIPT, "transcripciones")`. -/
def CARPETA_TRANSCRIPCIONES : String := osJoin RUTA_BASE_SCRIPT "transcripciones"

/-- `os.path.basename(p)` (posixpath): everything after the last `/`. -/
def basename (p : String) : String :=
  ⟨(p.data.reverse.takeWhile fun c => c ≠ '/').reverse⟩

/-- `os.path.splitext` on a single path component (no `/` inside), per
CPython `genericpath._splitext`: split at the last `.`, except that a
component whose characters before that dot are all dots (e.g. `".opus"`,
`"..opus"`) has no extension. -/
def splitextBase (cs : List Char) : List Char × List Char :=
  let extRev := cs.reverse.takeWhile fun c => c ≠ '.'
  if extRev.length = cs.length then (cs, [])
  else
    let stem := cs.take (cs.length - extRev.length - 1)
    if stem.any fun c => c ≠ '.' then (stem, '.' :: extRev.reverse)
    else (cs, [])

/-- `os.path.splitext(p)` (posixpath): the directory part is untouched, the
last component is split by `splitextBase`; `root ++ ext = p`. -/
def splitext (p : String) : String × String :=
  let base := p.data.reverse.takeWhile fun c => c ≠ '/'
  let dirPart := p.data.take (p.data.length - base.length)
  (⟨dirPart ++ (splitextBase base.reverse).1⟩, ⟨(splitextBase base.reverse).2⟩)

/-- Lexicographic comparison of character lists by code point: the order in
which Python's `sorted` arranges strings. -/
def leChars : List Char → List Char → Bool
  | [], _ => true
  | _ :: _, [] => false
  | a :: as, b :: bs =>
    if a.toNat < b.toNat then true
    else if b.toNat < a.toNat then false
    else leChars as bs

/-- Lexicographic order on strings by code point, as compared by Python's
`sorted`. -/
def lexLe (s t : String) : Bool :=
  leChars s.data t.data

/-- Substring test on character lists: `esSubcadena needle hay` holds iff
`needle` occurs contiguously in `hay` (the semantics of Python's
`needle in hay` on strings). -/
def esSubcadena (needle : List Char) : List Char → Bool
  | [] => needle.isPrefixOf ([] : List Char)
  | c :: t => needle.isPrefixOf (c :: t) || esSubcadena needle t

/-- Python `needle in hay` for strings. -/
def pyIn (needle hay : String) : Bool :=
  esSubcadena needle.data hay.data

/-- Python `s[:n]`: the first `n` characters of `s`. -/
def pyTake (n : Nat) (s : String) : String :=
  ⟨s.data.take n⟩

/-- The filesystem state the script observes and mutates. -/
structure FS where
  /-- `os.path.isdir(CARPETA_AUDIOS)`. -/
  inputDirExists : Bool
  /-- `os.listdir(CARPETA_AUDIOS)`: entry base names, in unspecified order. -/
  inputEntries : List String
  /-- `os.path.exists(CARPETA_TRANSCRIPCIONES)`. -/
  outputDirExists : Bool
  /-- Full paths of the existing regular files consulted by
  `os.path.exists` on output paths and extended by output writes. -/
  files : List String
  deriving DecidableEq

/-- `os.path.exists(p)` for a regular-file path. -/
def existePath (fs : FS) (p : String) : Bool :=
  decide (p ∈ fs.files)

/-- The output path both sites derive for input base name `nombre`:
`os.path.join(CARPETA_TRANSCRIPCIONES, f"{os.path.splitext(nombre)[0]}.txt")`.
This is the expression at line 74 (discovery). -/
def rutaSalidaDiscovery (nombre : String) : String :=
  osJoin CARPETA_TRANSCRIPCIONES ((splitext nombre).1 ++ ".txt")

/-- The output path the worker writes (lines 53–54 of `procesar_archivo`):
the same expression applied to `os.path.basename(ruta_audio)`. -/
def rutaSalidaWorker (ruta_audio : String) : String :=
  osJoin CARPETA_TRANSCRIPCIONES ((splitext (basename ruta_audio)).1 ++ ".txt")

/-- The loop-body test of discovery: the entry ends in `".opus"` and its
derived transcription does not yet exist. -/
def pendiente (fs : FS) (nombre : String) : Bool :=
  pyEndsWith nombre ".opus" && !(existePath fs (rutaSalidaDiscovery nombre))

/-- `encontrar_archivos_pendientes` (lines 65–78): `None` when the input
directory is missing; otherwise the sorted `listdir` entries are filtered to
pending `.opus` files and returned as full input paths.  Pure: it takes the
filesystem and returns only a value. -/
def encontrar_archivos_pendientes (fs : FS) : Option (List String) :=
  if fs.inputDirExists = false then none
  else
    some ((((fs.inputEntries.insertionSort fun s t => lexLe s t = true).filter
      (pendiente fs)).map (osJoin CARPETA_AUDIOS)))

/-- An `Outcome` tuple as returned by `procesar_archivo`:
`(nombre_archivo, status, error detail)`. -/
abbrev Outcome : Type := String × String × String

/-- The external effects available to a worker.  A Python exception raised by
the call is the `.error` case, carrying `str(e)`. -/
structure WorkerEnv where
  /-- `modelo_global.transcribe(ruta, ...)["text"]`: the transcribed text, or
  an exception. -/
  transcribe : String → Except String String
  /-- `open(path, "w", encoding="utf-8").write(contents)`: unit, or an
  exception. -/
  writeFile : String → String → Except String Unit

/-- `procesar_archivo` (lines 48–63): derive the base name and output path,
transcribe, write the text, and return an `Outcome`; any exception from the
transcription or the write is caught and returned as a `"FALLO"` tuple
carrying `str(e)`.  Total by construction: every fault case yields a value. -/
def procesar_archivo (env : WorkerEnv) (ruta_audio : String) : Outcome :=
  let nombre_archivo := basename ruta_audio
  let ruta_salida_txt := rutaSalidaWorker ruta_audio
  match env.transcribe ruta_audio with
  | .error e => (nombre_archivo, "FALLO", e)
  | .ok texto =>
    match env.writeFile ruta_salida_txt texto with
    | .error e => (nombre_archivo, "FALLO", e)
    | .ok _ => (nombre_archivo, "ÉXITO", "")

/-- The filesystem effect of one worker call: a successful transcription and
write adds the derived output file; any fault leaves the filesystem as the
model sees it unchanged. -/
def efectoProceso (env : WorkerEnv) (fs : FS) (ruta_audio : String) : FS :=
  match env.transcribe ruta_audio with
  | .error _ => fs
  | .ok texto =>
    match env.writeFile (rutaSalidaWorker ruta_audio) texto with
    | .error _ => fs
    | .ok _ => { fs with files := rutaSalidaWorker ruta_audio :: fs.files }

/-- `crear_carpetas_necesarias` (lines 32–36): create the output directory
when absent.  It creates a directory, never a regular file: `files` is
untouched. -/
def crear_carpetas_necesarias (fs : FS) : FS :=
  if fs.outputDirExists then fs else { fs with outputDirExists := true }

/-- How a run of `main` ended. -/
inductive MainResult where
  /-- `torch.cuda.is_available()` was false: early return at line 83. -/
  | noCuda
  /-- Discovery returned `None`: early return at line 90. -/
  | noInputDir
  /-- Discovery returned an empty list: early return at line 94. -/
  | nothingPending
  /-- The pool ran; the collected `resultados` list, in completion order. -/
  | completed (resultados : List Outcome)
  deriving DecidableEq

/-- The observable trace of one `main` run. -/
structure RunTrace where
  result : MainResult
  /-- Whether `multiprocessing.Pool(...)` was constructed (line 99). -/
  poolConstruido : Bool
  /-- The filesystem after the run. -/
  fs : FS

/-- `main` (lines 80–125), shallowly embedded.  `cudaDisponible` stands for
`torch.cuda.is_available()`.  `llegada` is the completion order in which
`pool.imap_unordered(procesar_archivo, archivos_a_procesar)` yields results;
the theorems constrain it to a permutation of the dispatched list.  The
collection loop appends each arriving `Outcome` to `resultados` and the
workers' successful writes extend the filesystem. -/
def mainRun (cudaDisponible : Bool) (env : WorkerEnv) (fs : FS)
    (llegada : List String) : RunTrace :=
  if cudaDisponible = false then ⟨.noCuda, false, fs⟩
  else
    let fs1 := crear_carpetas_necesarias fs
    match encontrar_archivos_pendientes fs1 with
    | none => ⟨.noInputDir, false, fs1⟩
    | some [] => ⟨.nothingPending, false, fs1⟩
    | some (_ :: _) =>
      ⟨.completed (llegada.map (procesar_archivo env)), true,
        llegada.foldl (efectoProceso env) fs1⟩

/-- The final report (lines 111–123): success count, failure count, and the
failure list, where the summary classifies by `r[1] == "ÉXITO"` /
`r[1] == "FALLO"`. -/
def reporteFinal (resultados : List Outcome) : Nat × Nat × List Outcome :=
  let exitos := resultados.filter fun r => r.2.1 == "ÉXITO"
  let fallos := resultados.filter fun r => r.2.1 == "FALLO"
  (exitos.length, fallos.length, fallos)

/-! ### Concrete environments used by the witnesses -/

/-- A worker environment whose transcription call always raises. -/
def envFalla : WorkerEnv :=
  ⟨fun _ => .error "boom", fun _ _ => .ok ()⟩

/-- A 101-character exception message. -/
def mensajeLargo : String :=
  ⟨List.replicate 101 'a'⟩

/-- A worker environment whose transcription call raises with a
101-character message. -/
def envMensajeLargo : WorkerEnv :=
  ⟨fun _ => .error mensajeLargo, fun _ _ => .ok ()⟩

/-- A worker environment whose transcription succeeds but whose output
write raises with a 101-character message. -/
def envEscrituraFalla : WorkerEnv :=
  ⟨fun _ => .ok "hola", fun _ _ => .error mensajeLargo⟩

/-- A worker environment where everything succeeds. -/
def envOk : WorkerEnv :=
  ⟨fun _ => .ok "hola", fun _ _ => .ok ()⟩

/-! ### Helper lemmas about the embedded path operations -/

/-- Totality of `leChars`. -/
theorem leChars_total : ∀ as bs, leChars as bs = true ∨ leChars bs as = true := by
  intro as
  induction as with
  | nil => intro bs; left; rfl
  | cons a as ih =>
    intro bs
    cases bs with
    | nil => right; rfl
    | cons b bs =>
      simp only [leChars]
      rcases Nat.lt_trichotomy a.toNat b.toNat with h | h | h
      · left
        rw [if_pos h]
      · rw [if_neg (by omega), if_neg (by omega), if_neg (by omega), if_neg (by omega)]
        exact ih bs
      · right
        rw [if_pos h]

/-- Transitivity of `leChars`. -/
theorem leChars_trans : ∀ as bs cs, leChars as bs = true → leChars bs cs = true →
    leChars as cs = true := by
  intro as
  induction as with
  | nil => intro bs cs _ _; rfl
  | cons a as ih =>
    intro bs cs hab hbc
    cases bs with
    | nil => simp [leChars] at hab
    | cons b bs =>
      cases cs with
      | nil => simp [leChars] at hbc
      | cons c cs =>
        simp only [leChars] at hab hbc ⊢
        rcases Nat.lt_trichotomy a.toNat b.toNat with h1 | h1 | h1
        · rcases Nat.lt_trichotomy b.toNat c.toNat with h2 | h2 | h2
          · rw [if_pos (show a.toNat < c.toNat by omega)]
          · rw [if_pos (show a.toNat < c.toNat by omega)]
          · rw [if_neg (by omega), if_pos (by omega)] at hbc
            simp at hbc
        · rw [if_neg (by omega), if_neg (by omega)] at hab
          rcases Nat.lt_trichotomy b.toNat c.toNat with h2 | h2 | h2
          · rw [if_pos (show a.toNat < c.toNat by omega)]
          · rw [if_neg (by omega), if_neg (by omega)] at hbc
            rw [if_neg (by omega), if_neg (by omega)]
            exact ih bs cs hab hbc
          · rw [if_neg (by omega), if_pos (by omega)] at hbc
            simp at hbc
        · rw [if_neg (by omega), if_pos (by omega)] at hab
          simp at hab

instance : IsTotal String fun s t => lexLe s t = true :=
  ⟨fun a b => leChars_total a.data b.data⟩

instance : IsTrans String fun s t => lexLe s t = true :=
  ⟨fun a b c => leChars_trans a.data b.data c.data⟩


theorem data_append (a b : String) : (a ++ b).data = a.data ++ b.data := rfl

theorem string_eq_of_data {a b : String} (h : a.data = b.data) : a = b := by
  cases a
  cases b
  exact congrArg String.mk h

theorem str_cancel_left {a b c : String} (h : a ++ b = a ++ c) : b = c := by
  apply string_eq_of_data
  have h2 := congrArg String.data h
  rw [data_append, data_append] at h2
  exact List.append_cancel_left h2

theorem str_cancel_right {a b c : String} (h : a ++ c = b ++ c) : a = b := by
  apply string_eq_of_data
  have h2 := congrArg String.data h
  rw [data_append, data_append] at h2
  exact List.append_cancel_right h2

theorem takeWhile_all {p : Char → Bool} :
    ∀ l : List Char, (∀ c ∈ l, p c = true) → l.takeWhile p = l := by
  intro l
  induction l with
  | nil => intro _; rfl
  | cons c t ih =>
    intro h
    rw [List.takeWhile_cons, if_pos (h c (List.mem_cons_self c t))]
    rw [ih fun d hd => h d (List.mem_cons_of_mem c hd)]

theorem takeWhile_append_stop {p : Char → Bool} :
    ∀ (l : List Char) (x : Char) (r : List Char),
      (∀ c ∈ l, p c = true) → p x = false → (l ++ x :: r).takeWhile p = l := by
  intro l
  induction l with
  | nil =>
    intro x r _ hx
    rw [List.nil_append, List.takeWhile_cons, if_neg (by simp [hx])]
  | cons c t ih =>
    intro x r h hx
    rw [List.cons_append, List.takeWhile_cons, if_pos (h c (List.mem_cons_self c t))]
    rw [ih x r (fun d hd => h d (List.mem_cons_of_mem c hd)) hx]

theorem pyStartsWith_slash_eq_false {s : String} (h : '/' ∉ s.data) :
    pyStartsWith s "/" = false := by
  unfold pyStartsWith
  cases hs : s.data with
  | nil => rfl
  | cons c t =>
    have hc : ('/' : Char) ≠ c := by
      intro e
      exact h (hs ▸ (e ▸ List.mem_cons_self c t))
    show (('/' : Char) == c && List.isPrefixOf [] t) = false
    rw [show (('/' : Char) == c) = false from beq_eq_false_iff_ne.mpr hc]
    rfl

theorem osJoin_eq {dir : String} (name : String) (h1 : dir ≠ "")
    (h2 : pyEndsWith dir "/" = false) (hn : pyStartsWith name "/" = false) :
    osJoin dir name = dir ++ "/" ++ name := by
  unfold osJoin
  rw [if_neg (by simp [hn]), if_neg (by simp [h1, h2])]

theorem osJoin_audios (name : String) (hn : pyStartsWith name "/" = false) :
    osJoin CARPETA_AUDIOS name = CARPETA_AUDIOS ++ "/" ++ name :=
  osJoin_eq name (by decide) (by decide) hn

theorem osJoin_audios_inj {m n : String} (hm : pyStartsWith m "/" = false)
    (hn : pyStartsWith n "/" = false)
    (h : osJoin CARPETA_AUDIOS m = osJoin CARPETA_AUDIOS n) : m = n := by
  rw [osJoin_audios m hm, osJoin_audios n hn] at h
  exact str_cancel_left h

theorem basename_osJoin (name : String) (h : '/' ∉ name.data) :
    basename (osJoin CARPETA_AUDIOS name) = name := by
  rw [osJoin_audios name (pyStartsWith_slash_eq_false h)]
  unfold basename
  have h1 : (CARPETA_AUDIOS ++ "/" ++ name).data
      = (CARPETA_AUDIOS.data ++ ['/']) ++ name.data := by
    rw [data_append, data_append]
  have h2 : ((CARPETA_AUDIOS.data ++ ['/']) ++ name.data).reverse
      = name.data.reverse ++ '/' :: CARPETA_AUDIOS.data.reverse := by
    simp
  have hall : ∀ c ∈ name.data.reverse, (fun c => decide (c ≠ '/')) c = true := by
    intro c hc
    exact decide_eq_true fun e => h (e ▸ List.mem_reverse.mp hc)
  have h3 := takeWhile_append_stop name.data.reverse '/' CARPETA_AUDIOS.data.reverse
    hall (by decide)
  rw [h1, h2, h3, List.reverse_reverse]

theorem rutaSalidaWorker_osJoin (name : String) (h : '/' ∉ name.data) :
    rutaSalidaWorker (osJoin CARPETA_AUDIOS name) = rutaSalidaDiscovery name := by
  unfold rutaSalidaWorker rutaSalidaDiscovery
  rw [basename_osJoin name h]

theorem dropWhile_head_false {p : Char → Bool} :
    ∀ (l : List Char) (r : Char) (rest : List Char),
      l.dropWhile p = r :: rest → p r = false := by
  intro l
  induction l with
  | nil => intro r rest h; simp [List.dropWhile] at h
  | cons c t ih =>
    intro r rest h
    rw [List.dropWhile_cons] at h
    by_cases hc : p c = true
    · rw [if_pos hc] at h
      exact ih r rest h
    · rw [if_neg hc] at h
      injection h with h1 _
      subst h1
      simpa using hc

theorem splitextBase_fst_append_snd (cs : List Char) :
    (splitextBase cs).1 ++ (splitextBase cs).2 = cs := by
  simp only [splitextBase]
  split_ifs with h1 h2
  · simp
  · set extRev := cs.reverse.takeWhile fun c => decide (c ≠ '.') with hext
    have hd : extRev ++ cs.reverse.dropWhile (fun c => decide (c ≠ '.')) = cs.reverse :=
      List.takeWhile_append_dropWhile _ _
    have hrest : cs.reverse.dropWhile (fun c => decide (c ≠ '.')) ≠ [] := by
      intro e
      apply h1
      rw [e, List.append_nil] at hd
      rw [hd, List.length_reverse]
    obtain ⟨r, rest', hr⟩ : ∃ r rest',
        cs.reverse.dropWhile (fun c => decide (c ≠ '.')) = r :: rest' := by
      cases he : cs.reverse.dropWhile fun c => decide (c ≠ '.') with
      | nil => exact absurd he hrest
      | cons r rest' => exact ⟨r, rest', rfl⟩
    have hpr : (fun c => decide (c ≠ '.')) r = false := dropWhile_head_false _ r rest' hr
    have hrdot : r = '.' := by simpa using hpr
    subst hrdot
    rw [hr] at hd
    have hcs : cs = rest'.reverse ++ '.' :: extRev.reverse := by
      have := congrArg List.reverse hd
      rw [List.reverse_reverse] at this
      rw [← this]
      simp
    have hlen : cs.length - extRev.length - 1 = rest'.reverse.length := by
      have h5 := congrArg List.length hcs
      simp only [List.length_append, List.length_cons, List.length_reverse] at h5 ⊢
      omega
    rw [hlen, hcs, List.take_left']
    rfl
  · simp

theorem splitextBase_fst_mem {cs : List Char} {c : Char}
    (hc : c ∈ (splitextBase cs).1) : c ∈ cs := by
  rw [← splitextBase_fst_append_snd cs]
  exact List.mem_append_left _ hc

theorem splitext_noSlash (name : String) (h : '/' ∉ name.data) :
    splitext name = (⟨(splitextBase name.data).1⟩, ⟨(splitextBase name.data).2⟩) := by
  have h1 : name.data.reverse.takeWhile (fun c => decide (c ≠ '/')) = name.data.reverse :=
    takeWhile_all _ fun c hc => decide_eq_true fun e => h (e ▸ List.mem_reverse.mp hc)
  simp only [splitext, h1, List.reverse_reverse, List.length_reverse, Nat.sub_self,
    List.take_zero, List.nil_append]

theorem splitext_data_complete (name : String) (h : '/' ∉ name.data) :
    (splitext name).1 ++ (splitext name).2 = name := by
  rw [splitext_noSlash name h]
  apply string_eq_of_data
  show (splitextBase name.data).1 ++ (splitextBase name.data).2 = name.data
  exact splitextBase_fst_append_snd _

theorem splitext_fst_noSlash (name : String) (h : '/' ∉ name.data) :
    '/' ∉ ((splitext name).1).data := by
  rw [splitext_noSlash name h]
  intro hc
  exact h (splitextBase_fst_mem hc)

theorem rutaSalida_startsWith {m : String} (hm : '/' ∉ m.data) :
    pyStartsWith ((splitext m).1 ++ ".txt") "/" = false := by
  apply pyStartsWith_slash_eq_false
  intro hc
  rw [data_append] at hc
  rcases List.mem_append.mp hc with hc | hc
  · exact splitext_fst_noSlash m hm hc
  · exact absurd hc (by decide)

/-- On distinct slash-free names whose extension is genuinely recognised by
`splitext` (the extension field is `".opus"`), the derived output paths are
distinct. -/
theorem rutaSalida_inj {m n : String} (hm : '/' ∉ m.data) (hn : '/' ∉ n.data)
    (hem : (splitext m).2 = ".opus") (hen : (splitext n).2 = ".opus")
    (h : rutaSalidaDiscovery m = rutaSalidaDiscovery n) : m = n := by
  unfold rutaSalidaDiscovery at h
  rw [osJoin_eq _ (by decide) (by decide) (rutaSalida_startsWith hm),
    osJoin_eq _ (by decide) (by decide) (rutaSalida_startsWith hn)] at h
  have hstem : (splitext m).1 = (splitext n).1 :=
    str_cancel_right (str_cancel_left h)
  calc m = (splitext m).1 ++ (splitext m).2 := (splitext_data_complete m hm).symm
    _ = (splitext n).1 ++ (splitext n).2 := by rw [hem, hen, hstem]
    _ = n := splitext_data_complete n hn

/-! ### Helper lemmas about discovery and `main` -/

theorem encontrar_eq_none_iff (fs : FS) :
    encontrar_archivos_pendientes fs = none ↔ fs.inputDirExists = false := by
  unfold encontrar_archivos_pendientes
  cases h : fs.inputDirExists <;> simp [h]

theorem encontrar_eq_some (fs : FS) (h : fs.inputDirExists = true) :
    encontrar_archivos_pendientes fs =
      some ((((fs.inputEntries.insertionSort fun s t => lexLe s t = true).filter
        (pendiente fs)).map (osJoin CARPETA_AUDIOS))) := by
  unfold encontrar_archivos_pendientes
  rw [if_neg (by simp [h])]

theorem encontrar_of_no_pendiente (fs : FS) (hdir : fs.inputDirExists = true)
    (h : ∀ n ∈ fs.inputEntries, pendiente fs n = false) :
    encontrar_archivos_pendientes fs = some [] := by
  rw [encontrar_eq_some fs hdir]
  have hnil : (fs.inputEntries.insertionSort fun s t => lexLe s t = true).filter
      (pendiente fs) = [] := by
    rw [List.filter_eq_nil_iff]
    intro a ha
    have hmem := (List.perm_insertionSort _ fs.inputEntries).mem_iff.mp ha
    simp [h a hmem]
  rw [hnil]
  rfl

theorem crear_inputDirExists (fs : FS) :
    (crear_carpetas_necesarias fs).inputDirExists = fs.inputDirExists := by
  unfold crear_carpetas_necesarias
  split <;> rfl

theorem crear_inputEntries (fs : FS) :
    (crear_carpetas_necesarias fs).inputEntries = fs.inputEntries := by
  unfold crear_carpetas_necesarias
  split <;> rfl

theorem crear_files (fs : FS) :
    (crear_carpetas_necesarias fs).files = fs.files := by
  unfold crear_carpetas_necesarias
  split <;> rfl

theorem encontrar_crear (fs : FS) :
    encontrar_archivos_pendientes (crear_carpetas_necesarias fs)
      = encontrar_archivos_pendientes fs := by
  unfold crear_carpetas_necesarias
  split <;> rfl

/-! ### Claims -/

/-- C2: for every input path, any exception raised by the transcription call
or by writing the output file is caught by `procesar_archivo`, which returns
a `(name, "FALLO", detail)` tuple instead of propagating; the embedded
function is total over those fault cases by construction. -/
theorem c2_procesar_nunca_propaga (env : WorkerEnv) (ruta_audio : String)
    (h : (∃ e, env.transcribe ruta_audio = .error e) ∨
      (∃ t e, env.transcribe ruta_audio = .ok t ∧
        env.writeFile (rutaSalidaWorker ruta_audio) t = .error e)) :
    ∃ detalle, procesar_archivo env ruta_audio
      = (basename ruta_audio, "FALLO", detalle) := by
  rcases h with ⟨e, he⟩ | ⟨t, e, ht, hw⟩
  · exact ⟨e, by simp [procesar_archivo, he]⟩
  · exact ⟨e, by simp [procesar_archivo, ht, hw]⟩

theorem c2_witness :
    ∃ detalle, procesar_archivo envFalla "/base/audios/x.opus"
      = (basename "/base/audios/x.opus", "FALLO", detalle) :=
  c2_procesar_nunca_propaga envFalla "/base/audios/x.opus" (Or.inl ⟨"boom", rfl⟩)

/-- C3, counterexample: the FAILURE `Outcome` returned by `procesar_archivo`
carries the full `str(e)`, not a truncated one — on a 101-character exception
message the outcome's error detail has length 101 > 100. -/
theorem c3_counterexample :
    (procesar_archivo envMensajeLargo "/base/audios/x.opus").2.1 = "FALLO" ∧
    100 < ((procesar_archivo envMensajeLargo "/base/audios/x.opus").2.2).length := by
  constructor
  · rfl
  · decide

/-- C3, amended: every FAILURE `Outcome` carries the full, untruncated
`str(e)` of the exception that produced it — whether the transcription call
raised or the output write raised — and it is the *printed* diagnostic
(`resultado[2][:100]` at line 106, `error_msg[:100]` at line 123) that is
truncated to at most 100 characters. -/
theorem c3_diagnostico_truncado (env : WorkerEnv) (ruta_audio : String) :
    (pyTake 100 (procesar_archivo env ruta_audio).2.2).length ≤ 100 ∧
    (∀ e, env.transcribe ruta_audio = .error e →
      (procesar_archivo env ruta_audio).2.2 = e) ∧
    (∀ t e, env.transcribe ruta_audio = .ok t →
      env.writeFile (rutaSalidaWorker ruta_audio) t = .error e →
      (procesar_archivo env ruta_audio).2.2 = e) ∧
    ((procesar_archivo env ruta_audio).2.1 = "FALLO" →
      (∃ e, env.transcribe ruta_audio = .error e ∧
        (procesar_archivo env ruta_audio).2.2 = e) ∨
      (∃ t e, env.transcribe ruta_audio = .ok t ∧
        env.writeFile (rutaSalidaWorker ruta_audio) t = .error e ∧
        (procesar_archivo env ruta_audio).2.2 = e)) := by
  refine ⟨?_, ?_, ?_, ?_⟩
  · show ((procesar_archivo env ruta_audio).2.2.data.take 100).length ≤ 100
    exact List.length_take_le 100 _
  · intro e he
    simp [procesar_archivo, he]
  · intro t e ht hw
    simp [procesar_archivo, ht, hw]
  · intro hf
    rcases ht : env.transcribe ruta_audio with e | t
    · exact Or.inl ⟨e, rfl, by simp [procesar_archivo, ht]⟩
    · rcases hw : env.writeFile (rutaSalidaWorker ruta_audio) t with e | u
      · exact Or.inr ⟨t, e, rfl, hw, by simp [procesar_archivo, ht, hw]⟩
      · have hstat : (procesar_archivo env ruta_audio).2.1 = "ÉXITO" := by
          simp [procesar_archivo, ht, hw]
        rw [hstat] at hf
        exact absurd hf (by decide)

theorem c3_witness :
    (pyTake 100 (procesar_archivo envMensajeLargo "/base/audios/x.opus").2.2).length
        ≤ 100 ∧
    (procesar_archivo envMensajeLargo "/base/audios/x.opus").2.2 = mensajeLargo ∧
    (procesar_archivo envEscrituraFalla "/base/audios/x.opus").2.2 = mensajeLargo :=
  ⟨(c3_diagnostico_truncado envMensajeLargo "/base/audios/x.opus").1,
    (c3_diagnostico_truncado envMensajeLargo "/base/audios/x.opus").2.1 mensajeLargo rfl,
    (c3_diagnostico_truncado envEscrituraFalla "/base/audios/x.opus").2.2.1 "hola"
      mensajeLargo rfl rfl⟩

/-- C10: every `Outcome` of `procesar_archivo` has status exactly `"ÉXITO"`
or `"FALLO"`, and the streaming test `"FALLO" in resultado[1]` (line 105)
agrees with the summary test `r[1] == "FALLO"` (line 112) on it. -/
theorem c10_clasificacion_consistente (env : WorkerEnv) (ruta_audio : String) :
    ((procesar_archivo env ruta_audio).2.1 = "ÉXITO" ∨
      (procesar_archivo env ruta_audio).2.1 = "FALLO") ∧
    pyIn "FALLO" (procesar_archivo env ruta_audio).2.1
      = ((procesar_archivo env ruta_audio).2.1 == "FALLO") := by
  rcases ht : env.transcribe ruta_audio with e | t
  · simp only [procesar_archivo, ht]
    exact ⟨by simp, by decide⟩
  · rcases hw : env.writeFile (rutaSalidaWorker ruta_audio) t with e | u
    · simp only [procesar_archivo, ht, hw]
      exact ⟨by simp, by decide⟩
    · simp only [procesar_archivo, ht, hw]
      exact ⟨by simp, by decide⟩

/-- C4: discovery returns `None` (handled in `main` as a fatal abort)
exactly when the input directory does not exist; when the directory exists
but has no pending `.opus` entry it instead returns `some []` — the two
cases are distinguishable results. -/
theorem c4_none_vs_vacio (fs : FS) (env : WorkerEnv) (llegada : List String) :
    (encontrar_archivos_pendientes fs = none ↔ fs.inputDirExists = false) ∧
    (fs.inputDirExists = true → (∀ n ∈ fs.inputEntries, pendiente fs n = false) →
      encontrar_archivos_pendientes fs = some []) ∧
    (fs.inputDirExists = false →
      (mainRun true env fs llegada).result = .noInputDir) := by
  refine ⟨encontrar_eq_none_iff fs, encontrar_of_no_pendiente fs, ?_⟩
  intro h
  have hnone : encontrar_archivos_pendientes (crear_carpetas_necesarias fs) = none := by
    rw [encontrar_crear]
    exact (encontrar_eq_none_iff fs).mpr h
  simp [mainRun, hnone]

theorem c4_witness :
    encontrar_archivos_pendientes ⟨false, [], false, []⟩ = none ∧
    encontrar_archivos_pendientes ⟨true, ["x.mp3"], true, []⟩ = some [] ∧
    (mainRun true envOk ⟨false, [], false, []⟩ []).result = .noInputDir :=
  ⟨(c4_none_vs_vacio ⟨false, [], false, []⟩ envOk []).1.mpr rfl,
    (c4_none_vs_vacio ⟨true, ["x.mp3"], true, []⟩ envOk []).2.1 rfl (by decide),
    (c4_none_vs_vacio ⟨false, [], false, []⟩ envOk []).2.2 rfl⟩

/-- C9: when the input directory does not exist, the run aborts before any
dispatch (no pool is constructed) and creates no files: the regular files
and the input entries are unchanged (the empty output *directory* may be
created at line 85, before discovery runs). -/
theorem c9_aborta_sin_escribir (cuda : Bool) (env : WorkerEnv) (fs : FS)
    (llegada : List String) (h : fs.inputDirExists = false) :
    (mainRun cuda env fs llegada).poolConstruido = false ∧
    ((mainRun cuda env fs llegada).result = .noCuda ∨
      (mainRun cuda env fs llegada).result = .noInputDir) ∧
    (mainRun cuda env fs llegada).fs.files = fs.files ∧
    (mainRun cuda env fs llegada).fs.inputEntries = fs.inputEntries := by
  cases cuda
  · exact ⟨rfl, Or.inl rfl, rfl, rfl⟩
  · have hnone : encontrar_archivos_pendientes (crear_carpetas_necesarias fs) = none := by
      rw [encontrar_crear]
      exact (encontrar_eq_none_iff fs).mpr h
    simp [mainRun, hnone, crear_files, crear_inputEntries]

theorem c9_witness :
    (mainRun true envOk ⟨false, ["x.opus"], false, []⟩ []).poolConstruido = false ∧
    ((mainRun true envOk ⟨false, ["x.opus"], false, []⟩ []).result = .noCuda ∨
      (mainRun true envOk ⟨false, ["x.opus"], false, []⟩ []).result = .noInputDir) ∧
    (mainRun true envOk ⟨false, ["x.opus"], false, []⟩ []).fs.files = [] ∧
    (mainRun true envOk ⟨false, ["x.opus"], false, []⟩ []).fs.inputEntries = ["x.opus"] :=
  c9_aborta_sin_escribir true envOk ⟨false, ["x.opus"], false, []⟩ [] rfl

/-- C7: if every `.opus` entry of the input directory already has its
derived output present, discovery returns the empty list and `main` returns
at line 94, before the pool is constructed. -/
theorem c7_segunda_corrida (fs : FS) (env : WorkerEnv) (llegada : List String)
    (hdir : fs.inputDirExists = true)
    (hall : ∀ n ∈ fs.inputEntries, pyEndsWith n ".opus" = true →
      rutaSalidaDiscovery n ∈ fs.files) :
    encontrar_archivos_pendientes fs = some [] ∧
    (mainRun true env fs llegada).result = .nothingPending ∧
    (mainRun true env fs llegada).poolConstruido = false := by
  have hpend : ∀ n ∈ fs.inputEntries, pendiente fs n = false := by
    intro n hn
    unfold pendiente existePath
    by_cases hp : pyEndsWith n ".opus" = true
    · simp [hp, hall n hn hp]
    · simp [show pyEndsWith n ".opus" = false by simpa using hp]
  have hnil := encontrar_of_no_pendiente fs hdir hpend
  have hnil2 : encontrar_archivos_pendientes (crear_carpetas_necesarias fs)
      = some [] := by
    rw [encontrar_crear]
    exact hnil
  exact ⟨hnil, by simp [mainRun, hnil2], by simp [mainRun, hnil2]⟩

theorem c7_witness :
    encontrar_archivos_pendientes
        ⟨true, ["a.opus"], true, [rutaSalidaDiscovery "a.opus"]⟩ = some [] ∧
    (mainRun true envOk ⟨true, ["a.opus"], true, [rutaSalidaDiscovery "a.opus"]⟩
        []).result = .nothingPending ∧
    (mainRun true envOk ⟨true, ["a.opus"], true, [rutaSalidaDiscovery "a.opus"]⟩
        []).poolConstruido = false :=
  c7_segunda_corrida ⟨true, ["a.opus"], true, [rutaSalidaDiscovery "a.opus"]⟩
    envOk [] rfl (by decide)

/-- C6: when the pool runs, exactly one `Outcome` is collected per
dispatched `WorkItem`: the collected list is the completion-ordered image of
the item list under `procesar_archivo`, so it has the same length and is a
permutation of the submission-ordered image. -/
theorem c6_un_outcome_por_item (fs : FS) (env : WorkerEnv)
    (llegada items : List String)
    (hitems : encontrar_archivos_pendientes (crear_carpetas_necesarias fs)
      = some items)
    (hne : items ≠ []) (hperm : llegada.Perm items) :
    (mainRun true env fs llegada).result
      = .completed (llegada.map (procesar_archivo env)) ∧
    (llegada.map (procesar_archivo env)).length = items.length ∧
    (llegada.map (procesar_archivo env)).Perm
      (items.map (procesar_archivo env)) := by
  refine ⟨?_, ?_, hperm.map _⟩
  · cases items with
    | nil => exact absurd rfl hne
    | cons i is => simp [mainRun, hitems]
  · rw [List.length_map]
    exact hperm.length_eq

theorem c6_witness :
    (mainRun true envOk ⟨true, ["a.opus"], true, []⟩ ["/base/audios/a.opus"]).result
      = .completed (["/base/audios/a.opus"].map (procesar_archivo envOk)) ∧
    (["/base/audios/a.opus"].map (procesar_archivo envOk)).length
      = (["/base/audios/a.opus"] : List String).length ∧
    (["/base/audios/a.opus"].map (procesar_archivo envOk)).Perm
      (["/base/audios/a.opus"].map (procesar_archivo envOk)) :=
  c6_un_outcome_por_item ⟨true, ["a.opus"], true, []⟩ envOk
    ["/base/audios/a.opus"] ["/base/audios/a.opus"] (by decide) (by decide)
    (List.Perm.refl _)

/-- C1: when the input directory exists, discovery returns exactly the
entries whose name ends in `".opus"` and whose derived output path is not
among the existing files, in lexicographic (code-point) order by filename,
each mapped to its full input path.  The embedded function is pure by
construction (it takes the filesystem and returns only a value). -/
theorem c1_descubrimiento_exacto (fs : FS) (h : fs.inputDirExists = true) :
    ∃ names : List String,
      encontrar_archivos_pendientes fs = some (names.map (osJoin CARPETA_AUDIOS)) ∧
      List.Sorted (fun s t => lexLe s t = true) names ∧
      names.Perm (fs.inputEntries.filter fun n =>
        decide (pyEndsWith n ".opus" = true ∧ rutaSalidaDiscovery n ∉ fs.files)) := by
  refine ⟨(fs.inputEntries.insertionSort fun s t => lexLe s t = true).filter
    (pendiente fs), encontrar_eq_some fs h, ?_, ?_⟩
  · exact (List.sorted_insertionSort _ _).filter _
  · have hperm := (List.perm_insertionSort (fun s t => lexLe s t = true)
      fs.inputEntries).filter (pendiente fs)
    have hcongr : ∀ n ∈ fs.inputEntries, pendiente fs n =
        decide (pyEndsWith n ".opus" = true ∧ rutaSalidaDiscovery n ∉ fs.files) := by
      intro n _
      unfold pendiente existePath
      by_cases hp : pyEndsWith n ".opus" = true <;>
        by_cases hm : rutaSalidaDiscovery n ∈ fs.files <;> simp [hp, hm]
    rw [List.filter_congr hcongr] at hperm
    exact hperm

theorem c1_witness :
    ∃ names : List String,
      encontrar_archivos_pendientes ⟨true, ["b.opus", "a.opus", "c.mp3"], true, []⟩
        = some (names.map (osJoin CARPETA_AUDIOS)) ∧
      List.Sorted (fun s t => lexLe s t = true) names ∧
      names.Perm ((["b.opus", "a.opus", "c.mp3"] : List String).filter fun n =>
        decide (pyEndsWith n ".opus" = true ∧
          rutaSalidaDiscovery n ∉ (⟨true, ["b.opus", "a.opus", "c.mp3"], true, []⟩
            : FS).files)) :=
  c1_descubrimiento_exacto ⟨true, ["b.opus", "a.opus", "c.mp3"], true, []⟩ rfl

/-- C5: for a slash-free base name, the output path whose existence
discovery checks (line 74) and the output path the worker derives and
writes (lines 53–54) coincide; hence once that output exists, a later
discovery run never returns the file again. -/
theorem c5_rutas_coinciden (name : String) (fs : FS)
    (hname : '/' ∉ name.data)
    (hents : ∀ m ∈ fs.inputEntries, '/' ∉ m.data) :
    rutaSalidaWorker (osJoin CARPETA_AUDIOS name) = rutaSalidaDiscovery name ∧
    (rutaSalidaDiscovery name ∈ fs.files →
      ∀ l, encontrar_archivos_pendientes fs = some l →
        osJoin CARPETA_AUDIOS name ∉ l) := by
  refine ⟨rutaSalidaWorker_osJoin name hname, ?_⟩
  intro hmem l hl hin
  cases hdir : fs.inputDirExists with
  | false =>
    rw [(encontrar_eq_none_iff fs).mpr hdir] at hl
    cases hl
  | true =>
    rw [encontrar_eq_some fs hdir] at hl
    injection hl with hl
    subst hl
    rcases List.mem_map.mp hin with ⟨m, hmfil, hmeq⟩
    have hm_ent : m ∈ fs.inputEntries :=
      (List.perm_insertionSort _ _).mem_iff.mp (List.mem_filter.mp hmfil).1
    have hpend : pendiente fs m = true := (List.mem_filter.mp hmfil).2
    have hmn : m = name :=
      osJoin_audios_inj (pyStartsWith_slash_eq_false (hents m hm_ent))
        (pyStartsWith_slash_eq_false hname) hmeq
    subst hmn
    have hex : existePath fs (rutaSalidaDiscovery m) = true := by
      unfold existePath
      exact decide_eq_true hmem
    unfold pendiente at hpend
    rw [hex] at hpend
    simp at hpend

theorem c5_witness :
    rutaSalidaWorker (osJoin CARPETA_AUDIOS "a.opus") = rutaSalidaDiscovery "a.opus" ∧
    (rutaSalidaDiscovery "a.opus"
        ∈ (⟨true, ["a.opus"], true, [rutaSalidaDiscovery "a.opus"]⟩ : FS).files →
      ∀ l, encontrar_archivos_pendientes
          ⟨true, ["a.opus"], true, [rutaSalidaDiscovery "a.opus"]⟩ = some l →
        osJoin CARPETA_AUDIOS "a.opus" ∉ l) :=
  c5_rutas_coinciden "a.opus" ⟨true, ["a.opus"], true, [rutaSalidaDiscovery "a.opus"]⟩
    (by decide) (by decide)

/-- C8, counterexample: the hidden-file names `".opus"` and `".opus.opus"`
are distinct, can both be returned by one discovery call, and derive the
same output path, because `os.path.splitext` treats a leading dot as part of
the root: both map to `transcripciones/.opus.txt`. -/
theorem c8_counterexample :
    encontrar_archivos_pendientes ⟨true, [".opus", ".opus.opus"], true, []⟩
      = some ["/base/audios/.opus", "/base/audios/.opus.opus"] ∧
    ("/base/audios/.opus" : String) ≠ "/base/audios/.opus.opus" ∧
    rutaSalidaWorker "/base/audios/.opus"
      = rutaSalidaWorker "/base/audios/.opus.opus" := by
  decide

/-- C8, amended: for two distinct items of one discovery result whose base
names have their `".opus"` extension genuinely recognised by
`os.path.splitext` (true for every name with a non-dot character before the
trailing `".opus"`; false only for dot-files such as `".opus"` itself), the
derived output paths are distinct, so those workers never write the same
output file. -/
theorem c8_salidas_inyectivas (fs : FS) (l : List String)
    (hents : ∀ m ∈ fs.inputEntries, '/' ∉ m.data)
    (hl : encontrar_archivos_pendientes fs = some l)
    (pa pb : String) (ha : pa ∈ l) (hb : pb ∈ l) (hne : pa ≠ pb)
    (hga : (splitext (basename pa)).2 = ".opus")
    (hgb : (splitext (basename pb)).2 = ".opus") :
    rutaSalidaWorker pa ≠ rutaSalidaWorker pb := by
  cases hdir : fs.inputDirExists with
  | false =>
    rw [(encontrar_eq_none_iff fs).mpr hdir] at hl
    cases hl
  | true =>
    rw [encontrar_eq_some fs hdir] at hl
    injection hl with hl
    subst hl
    rcases List.mem_map.mp ha with ⟨m, hmf, rfl⟩
    rcases List.mem_map.mp hb with ⟨n, hnf, rfl⟩
    have hm_ent : m ∈ fs.inputEntries :=
      (List.perm_insertionSort _ _).mem_iff.mp (List.mem_filter.mp hmf).1
    have hn_ent : n ∈ fs.inputEntries :=
      (List.perm_insertionSort _ _).mem_iff.mp (List.mem_filter.mp hnf).1
    have hmns := hents m hm_ent
    have hnns := hents n hn_ent
    rw [rutaSalidaWorker_osJoin m hmns, rutaSalidaWorker_osJoin n hnns]
    rw [basename_osJoin m hmns] at hga
    rw [basename_osJoin n hnns] at hgb
    intro heq
    exact hne (congrArg (osJoin CARPETA_AUDIOS)
      (rutaSalida_inj hmns hnns hga hgb heq))

theorem c8_witness :
    rutaSalidaWorker "/base/audios/a.opus" ≠ rutaSalidaWorker "/base/audios/b.opus" :=
  c8_salidas_inyectivas ⟨true, ["a.opus", "b.opus"], true, []⟩
    ["/base/audios/a.opus", "/base/audios/b.opus"] (by decide) (by decide)
    "/base/audios/a.opus" "/base/audios/b.opus" (by decide) (by decide)
    (by decide) (by decide) (by decide)
